import Mathlib

/-!
# Verification of the wildfire meteorological-data pipeline

Shallow embedding of the two source files of the repository:

* the meteorological-data collection notebook (`build_request_param`, the
  three campaign loops, and the `filtered_df` record filter), and
* the merging notebook (`02.2_merging_data.ipynb`: the pandas merges,
  the column drop, `set_index('id')` and the `to_csv(index=False)` export).

Response texts are modelled as `List Char`; tables coming back from the
remote service as a header plus rows of cells (`DF`); the tables of the
merging notebook as association-list rows (`Frame`).  Python exceptions
that escape the batch are modelled by `PyRes`.
-/

set_option linter.unusedVariables false

namespace WildFire

/-- A piece of text, as the list of its characters (Python `str`). -/
abbrev Text := List Char

/-- The header/payload delimiter of the remote service:
the literal `-END HEADER-` marker (`res.text.split("-END HEADER-")`). -/
def markerL : Text := "-END HEADER-".toList

/-- Leftmost-occurrence splitter: `splitFirst sep s = some (pre, post)`
when `s = pre ++ sep ++ post` at the first occurrence of `sep`, `none`
when `sep` does not occur.  Mirrors the occurrence search of Python's
`str.split`. -/
def splitFirst (sep : Text) : Text → Option (Text × Text)
  | [] => none
  | c :: rest =>
    if sep.isPrefixOf (c :: rest) then some ([], (c :: rest).drop sep.length)
    else match splitFirst sep rest with
         | none => none
         | some (p, q) => some (c :: p, q)

/-- Fuelled worker for `splitMarker`; the fuel only bounds the recursion
depth, one unit per occurrence of the separator. -/
def splitMarkerAux : Nat → Text → List Text
  | 0, s => [s]
  | fuel + 1, s =>
    match splitFirst markerL s with
    | none => [s]
    | some (p, q) => p :: splitMarkerAux fuel q

/-- Python's `s.split("-END HEADER-")`: split `s` at every
(non-overlapping, leftmost-first) occurrence of the marker. -/
def splitMarker (s : Text) : List Text := splitMarkerAux s.length s

/-- A dataframe as parsed from a csv payload: a header of column names
and a list of rows of cells. -/
structure DF where
  header : List Text
  rows : List (List Text)
deriving DecidableEq, Repr

/-- `pd.DataFrame()`: the empty dataframe each campaign starts from. -/
def emptyDF : DF := { header := [], rows := [] }

/-- `pd.read_csv(io.StringIO(s))` for a comma-separated text: blank lines
are skipped, the first remaining line is the header, the rest are data
rows; an input with no non-blank line raises `EmptyDataError`, modelled
as `none`. -/
def read_csv (s : Text) : Option DF :=
  match (s.splitOn '\n').filter (fun l => l ≠ []) with
  | [] => none
  | h :: t =>
      some { header := h.splitOn ',', rows := t.map (fun l => l.splitOn ',') }

/-- `df[name] = v`: append a column holding the constant `v` in every row. -/
def addConstCol (df : DF) (name : Text) (v : Text) : DF :=
  { header := df.header ++ [name], rows := df.rows.map (fun r => r ++ [v]) }

/-- `pd.concat([a, b])`: rows of `b` after the rows of `a`, the header
being the column union in order of first appearance. -/
def dfConcat (a b : DF) : DF :=
  { header := a.header ++ b.header.filter (fun h => h ∉ a.header),
    rows := a.rows ++ b.rows }

/-- `pd.concat([a, b])` where `a` may be `None`: pandas silently drops
`None` entries of the list, so the result is just `b` in that case. -/
def pdConcat : Option DF → DF → DF
  | some a, b => dfConcat a b
  | none, b => b

/-- Python exceptions that can escape the campaign loops. -/
inductive PyExn
  /-- `pandas.errors.EmptyDataError` from `pd.read_csv` on an empty text. -/
  | emptyData
  /-- `requests.exceptions.ConnectionError` from `requests.get`: the
  notebook's bare `except ConnectionError` clause names the Python
  builtin, which requests' exception does not subclass, so this
  exception is never caught and propagates. -/
  | requestsConnError
  /-- `ValueError` from `strftime` on a `NaT` timestamp. -/
  | natStrftime
deriving DecidableEq, Repr

/-- Outcome of a Python expression: a value, or an uncaught exception
propagating past the batch boundary. -/
inductive PyRes (α : Type)
  | ok (a : α)
  | exn (e : PyExn)
deriving DecidableEq, Repr

/-- Outcome of `requests.get`: a response text, or a connectivity failure. -/
inductive FetchOutcome
  | success (text : Text)
  | connError
deriving DecidableEq, Repr

/-- Calendar date (pandas `Timestamp`, date part). -/
structure Date where
  year : Int
  month : Nat
  day : Nat
deriving DecidableEq, Repr

/-- Gregorian leap-year test. -/
def isLeap (y : Int) : Bool := (y % 4 == 0 && y % 100 != 0) || y % 400 == 0

/-- Number of days of month `m` of year `y`. -/
def daysInMonth (y : Int) (m : Nat) : Nat :=
  if m = 2 then (if isLeap y then 29 else 28)
  else if m = 4 ∨ m = 6 ∨ m = 9 ∨ m = 11 then 30 else 31

/-- Days in the months strictly before month `m` of a year
(`leap` tells whether that year is a leap year). -/
def daysBeforeMonth (leap : Bool) (m : Nat) : Nat :=
  let lens : List Nat :=
    [31, if leap then 29 else 28, 31, 30, 31, 30, 31, 31, 30, 31, 30, 31]
  (lens.take (m - 1)).sum

/-- Rata-die day number of a date (day 1 = 0001-01-01), used to measure
distances between dates in days. -/
def toRD (d : Date) : Int :=
  let y : Int := d.year - 1
  365 * y + y.fdiv 4 - y.fdiv 100 + y.fdiv 400
    + (daysBeforeMonth (isLeap d.year) d.month : Int) + (d.day : Int)

/-- `Timestamp - DateOffset(months=k)`: calendar-month arithmetic — move
back `k` months and clamp the day to the length of the target month. -/
def subMonths (d : Date) (k : Nat) : Date :=
  let t : Int := d.year * 12 + (d.month : Int) - 1 - (k : Int)
  let y : Int := t.fdiv 12
  let m : Nat := (t.fmod 12).toNat + 1
  { year := y, month := m, day := min d.day (daysInMonth y m) }

/-- A pandas `Timestamp`: a calendar date plus the second within the day. -/
structure DateTime where
  date : Date
  sec : Nat
deriving DecidableEq, Repr

/-- Absolute position of a timestamp in seconds, to compare timedeltas. -/
def DateTime.toSec (t : DateTime) : Int := toRD t.date * 86400 + (t.sec : Int)

/-- `timedelta(days=1)` in seconds. -/
def oneDaySec : Int := 86400

/-- `t - DateOffset(months=k)` on a timestamp: the time of day is kept. -/
def dtSubMonths (t : DateTime) (k : Nat) : DateTime :=
  { date := subMonths t.date k, sec := t.sec }

/-- Decimal rendering of a natural number, as text. -/
def natText (n : Nat) : Text := (Nat.repr n).toList

/-- Decimal rendering of an integer, as text. -/
def intText (n : Int) : Text := (Int.repr n).toList

/-- Zero-padded two-digit rendering (`%m`, `%d`). -/
def pad2 (n : Nat) : Text := if n < 10 then '0' :: natText n else natText n

/-- The two `strftime` format strings the notebook passes as
`date_filter`: `'%Y%m%d'` (default) and `'%Y'`. -/
inductive DateFilter
  | ymd
  | y
deriving DecidableEq, Repr

/-- `date.strftime(date_filter)` for the two formats used. -/
def strftime (f : DateFilter) (d : Date) : Text :=
  match f with
  | .ymd => intText d.year ++ pad2 d.month ++ pad2 d.day
  | .y => intText d.year

/-- The request target built inside `build_request_param`:
`base_uri` followed by
`latitude={lat}&longitude={long}&start={start}&end={end}`. -/
def buildUri (lat long : Text) (start_date end_date : DateTime)
    (base_uri : Text) (date_filter : DateFilter) : Text :=
  base_uri ++ "latitude=".toList ++ lat ++ "&longitude=".toList ++ long
    ++ "&start=".toList ++ strftime date_filter start_date.date
    ++ "&end=".toList ++ strftime date_filter end_date.date

/-- Column names attached to every successful response. -/
def latName : Text := "LAT".toList
/-- Column names attached to every successful response. -/
def longName : Text := "LONG".toList
/-- Column names attached to every successful response. -/
def pidName : Text := "PID".toList

/-- `build_request_param(id, lat, long, start_date, end_date, result_df,
base_uri, date_filter)` of the collection notebook.  The accumulator
`result_df` is `Option DF` because the Python variable is untyped and a
`None` entry to `pd.concat` is silently dropped (`pdConcat`).  A
connectivity failure from `requests.get` is
`requests.exceptions.ConnectionError`; the notebook's bare
`except ConnectionError:` clause names the Python builtin, which that
exception does not subclass, so the handler (a `print`, falling through
to return `None`) never matches and the exception propagates uncaught.
`pd.read_csv` of an empty post-marker segment raises an uncaught
`EmptyDataError`. -/
def build_request_param (fetchF : Text → FetchOutcome) (id : Nat)
    (lat long : Text) (start_date end_date : DateTime)
    (result_df : Option DF) (base_uri : Text) (date_filter : DateFilter) :
    PyRes (Option DF) :=
  let uri := buildUri lat long start_date end_date base_uri date_filter
  match fetchF uri with
  | .connError => .exn .requestsConnError
  | .success text =>
    let split_text := splitMarker text
    if 2 ≤ split_text.length then
      match read_csv (split_text.getD 1 []) with
      | none => .exn .emptyData
      | some response_df =>
        let response_df :=
          addConstCol (addConstCol (addConstCol response_df latName lat)
            longName long) pidName (natText id)
        .ok (some (pdConcat result_df response_df))
    else .ok result_df

/-- One row of the wildfire input table, restricted to the columns the
collection notebook reads.  `Option` marks values that pandas parsed as
missing (`NaN` / `NaT` under `errors='coerce'`). -/
structure FireRecord where
  id : Nat
  lat : Text
  long : Text
  discovery : Option DateTime
  control : Option DateTime
  acres : Option ℚ
deriving DecidableEq

/-- `df['DailyAcres'] > 1`: a missing value compares as false. -/
def acresGtOne (r : FireRecord) : Bool :=
  match r.acres with
  | some a => decide (1 < a)
  | none => false

/-- `(df['ControlDateTime'] - df['FireDiscoveryDateTime']) >
timedelta(days=1)`: a missing timestamp makes the comparison false. -/
def durGtOneDay (r : FireRecord) : Bool :=
  match r.control, r.discovery with
  | some c, some d => decide (oneDaySec < c.toSec - d.toSec)
  | _, _ => false

/-- The two filtering cells of the notebook:
`filtered_df = df[df['DailyAcres'] > 1]` followed by
`filtered_df = filtered_df[(control - discovery) > timedelta(days=1)]`. -/
def filtered_df (df : List FireRecord) : List FireRecord :=
  (df.filter acresGtOne).filter durGtOneDay

/-- One iteration of the basic campaign loop
(`nasa_df = build_request_param(i, InitialLatitude, InitialLongitude,
FireDiscoveryDateTime, ControlDateTime, nasa_df, base_uri)`): an
exception already raised aborts the rest; `strftime` on a `NaT`
discovery/control date raises. -/
def stepBasic (fetchF : Text → FetchOutcome) (base_uri : Text)
    (acc : PyRes (Option DF)) (r : FireRecord) : PyRes (Option DF) :=
  match acc with
  | .exn e => .exn e
  | .ok accDf =>
    match r.discovery, r.control with
    | some d, some c =>
        build_request_param fetchF r.id r.lat r.long d c accDf base_uri .ymd
    | _, _ => .exn .natStrftime

/-- The basic campaign: `nasa_df = pd.DataFrame()` then the loop over all
records of `df`. -/
def basicCampaign (fetchF : Text → FetchOutcome) (recs : List FireRecord)
    (base_uri : Text) : PyRes (Option DF) :=
  recs.foldl (stepBasic fetchF base_uri) (.ok (some emptyDF))

/-- The start and end dates the historical-precipitation loop passes to
`build_request_param`:
`FireDiscoveryDateTime - pd.tseries.offsets.DateOffset(months=6)` and
`FireDiscoveryDateTime` (`none` when the discovery date is missing). -/
def histDates (r : FireRecord) : Option (DateTime × DateTime) :=
  match r.discovery with
  | some d => some (dtSubMonths d 6, d)
  | none => none

/-- One iteration of the historical-precipitation loop, with
`date_filter='%Y'`. -/
def stepHist (fetchF : Text → FetchOutcome) (base_uri : Text)
    (acc : PyRes (Option DF)) (r : FireRecord) : PyRes (Option DF) :=
  match acc with
  | .exn e => .exn e
  | .ok accDf =>
    match histDates r with
    | some (s, e) =>
        build_request_param fetchF r.id r.lat r.long s e accDf base_uri .y
    | none => .exn .natStrftime

/-- The historical-precipitation campaign: the loop runs over
`filtered_df.index`. -/
def histCampaign (fetchF : Text → FetchOutcome) (df : List FireRecord)
    (base_uri : Text) : PyRes (Option DF) :=
  (filtered_df df).foldl (stepHist fetchF base_uri) (.ok (some emptyDF))

/-- The rows a record contributes to the combined table when its fetch
succeeds: the parsed post-marker segment with the `LAT`, `LONG`, `PID`
columns attached; no rows when the marker is absent. -/
def fetchRows (fetchF : Text → FetchOutcome) (base_uri : Text)
    (r : FireRecord) : List (List Text) :=
  match r.discovery, r.control with
  | some d, some c =>
    match fetchF (buildUri r.lat r.long d c base_uri .ymd) with
    | .connError => []
    | .success text =>
      let split_text := splitMarker text
      if 2 ≤ split_text.length then
        match read_csv (split_text.getD 1 []) with
        | none => []
        | some response_df =>
            (addConstCol (addConstCol (addConstCol response_df latName r.lat)
              longName r.long) pidName (natText r.id)).rows
      else []
  | _, _ => []

/-- A record whose iteration in the basic campaign neither raises nor
loses data: its dates are present and its fetch either succeeds with a
parseable payload or succeeds without the marker (no data available). -/
def goodRecord (fetchF : Text → FetchOutcome) (base_uri : Text)
    (r : FireRecord) : Prop :=
  ∃ d c, r.discovery = some d ∧ r.control = some c ∧
    ∃ text, fetchF (buildUri r.lat r.long d c base_uri .ymd) = .success text ∧
      (2 ≤ (splitMarker text).length →
        ∃ df, read_csv ((splitMarker text).getD 1 []) = some df)

/-- A row of a csv-loaded table in the merging notebook, as the
association list of its (column name, cell) pairs. -/
abbrev Row := List (String × String)

/-- First cell of a row under a column name (pandas column access). -/
def Row.getCol (row : Row) (c : String) : Option String :=
  (row.find? (fun p => p.1 == c)).map (fun p => p.2)

/-- Remove the cells of a column from a row. -/
def Row.eraseCol (row : Row) (c : String) : Row :=
  row.filter (fun p => p.1 != c)

/-- A table of the merging notebook: its column names and its rows. -/
structure Frame where
  cols : List String
  rows : List Row
deriving DecidableEq, Repr

/-- The join condition of `pd.merge`: the two key cells are present and
equal (a missing key never matches). -/
def matchKey (lr : Row) (lk : String) (rr : Row) (rk : String) : Bool :=
  match lr.getCol lk, rr.getCol rk with
  | some a, some b => a == b
  | _, _ => false

/-- `l.merge(r, left_on=lk, right_on=rk)` with the default inner join and
differently named keys, so both key columns survive: each left row is
paired with every right row whose key matches, in order.  (Simplification
kept from pandas: overlapping non-key column names are not suffixed
`_x`/`_y`; no lookup in this development crosses such a duplicate.) -/
def merge (l r : Frame) (lk rk : String) : Frame :=
  { cols := l.cols ++ r.cols,
    rows := l.rows.flatMap (fun lr =>
      (r.rows.filter (fun rr => matchKey lr lk rr rk)).map
        (fun rr => lr ++ rr)) }

/-- `l.merge(r, on=k)` (also `left_on=k, right_on=k` with the same name):
inner join where the single shared key column is kept once, from the left
side. -/
def mergeOn (l r : Frame) (k : String) : Frame :=
  { cols := l.cols ++ r.cols.filter (fun c => c != k),
    rows := l.rows.flatMap (fun lr =>
      (r.rows.filter (fun rr => matchKey lr k rr k)).map
        (fun rr => lr ++ rr.eraseCol k)) }

/-- `frame.drop(columns=names)` with the pandas default `errors='raise'`:
a `KeyError` when any listed name is absent from the columns; otherwise
every listed column is removed. -/
def Frame.dropCols (f : Frame) (names : List String) : Except String Frame :=
  if names.all (fun n => n ∈ f.cols) then
    .ok { cols := f.cols.filter (fun c => c ∉ names),
          rows := f.rows.map (fun row => row.filter (fun p => p.1 ∉ names)) }
  else .error "KeyError"

/-- A frame whose index has been set to one of its columns. -/
structure KeyedFrame where
  indexName : String
  index : List (Option String)
  cols : List String
  rows : List Row
deriving DecidableEq, Repr

/-- `frame.set_index(k, inplace=True)`: the column `k` becomes the row
index and leaves the column set. -/
def set_index (f : Frame) (k : String) : KeyedFrame :=
  { indexName := k,
    index := f.rows.map (fun row => row.getCol k),
    cols := f.cols.filter (fun c => c != k),
    rows := f.rows.map (fun row => row.eraseCol k) }

/-- `kf.to_csv(path, index=False)`: the emitted csv as its list of
comma-separated records — the header row (the column names) followed by
one record per row; the index is not written. -/
def to_csv_noindex (f : KeyedFrame) : List (List String) :=
  f.cols :: f.rows.map (fun row => f.cols.map (fun c => (row.getCol c).getD ""))

/-- The final two cells producing each persisted master table:
`set_index('id', inplace=True)` then `to_csv(..., index=False)`. -/
def exportMaster (m : Frame) : List (List String) :=
  to_csv_noindex (set_index m "id")

/-- The hardcoded drop list `cols` of the merging notebook. -/
def colsList : List String :=
  ["UniqueFireIdentifier", "X", "Y", "ContainmentDateTime",
   "ControlDateTime", "DailyAcres", "FireCause", "FireDiscoveryDateTime",
   "IncidentTypeCategory", "IncidentTypeKind", "InitialLatitude",
   "InitialLongitude", "IrwinID", "LocalIncidentIdentifier", "POOCounty",
   "POODispatchCenterID", "POOFips", "POOState", "fire_id_x", "x", "y",
   "firecause", "firediscoverydatetime", "incidenttypecategory",
   "containmentdatetime", "controldatetime", "dailyacres",
   "discoveryacres", "incidenttypekind", "initiallatitude",
   "initiallongitude", "rain_sum", "fire_id_y", "irwinid",
   "localincidentidentifier", "poocounty", "poodispatchcenterid",
   "poofips", "poostate", "uniquefireidentifier", "wind_speed_2m_mean",
   "wind_speed_2m_max_mean", "wind_speed_10m_mean",
   "wind_speed_10m_max_mean", "humidity_mean", "temp_2m_mean"]

/-- `data = historical_precip.merge(wildfires, on='UniqueFireIdentifier')`. -/
def dataStep (historical_precip wildfires : Frame) : Frame :=
  mergeOn historical_precip wildfires "UniqueFireIdentifier"

/-- `data1 = data.merge(weather, left_on='id', right_on='id')` — the key
columns carry the same name, so a single `id` column survives. -/
def data1Step (data weather : Frame) : Frame := mergeOn data weather "id"

/-- `data2 = data1.merge(landcover, left_on='id', right_on='fire_id')`. -/
def data2Step (data1 landcover : Frame) : Frame :=
  merge data1 landcover "id" "fire_id"

/-- The merged (pre-projection) filtered master table. -/
def masterFilteredMerged (wildfires landcover historical_precip weather :
    Frame) : Frame :=
  data2Step (data1Step (dataStep historical_precip wildfires) weather)
    landcover

/-- `data_1 = wildfires.merge(weather, left_on='fire_id', right_on='id')`. -/
def dataAll1Step (wildfires weather : Frame) : Frame :=
  merge wildfires weather "fire_id" "id"

/-- `data_2 = data_1.merge(landcover, left_on='id', right_on='fire_id')`. -/
def dataAll2Step (data_1 landcover : Frame) : Frame :=
  merge data_1 landcover "id" "fire_id"

/-- The merged (pre-projection) all-fires master table. -/
def masterAllMerged (wildfires landcover weather : Frame) : Frame :=
  dataAll2Step (dataAll1Step wildfires weather) landcover

/-! ## Record filter (C7, C9) -/

theorem acresGtOne_iff (r : FireRecord) :
    acresGtOne r = true ↔ ∃ a, r.acres = some a ∧ 1 < a := by
  unfold acresGtOne
  cases h : r.acres <;> simp

theorem durGtOneDay_iff (r : FireRecord) :
    durGtOneDay r = true ↔
      ∃ c d, r.control = some c ∧ r.discovery = some d ∧
        oneDaySec < c.toSec - d.toSec := by
  unfold durGtOneDay
  cases hc : r.control <;> cases hd : r.discovery <;> simp

/-- C7: the record filter selects exactly the records whose `DailyAcres`
is strictly greater than `1` and whose `ControlDateTime` minus
`FireDiscoveryDateTime` exceeds one day; records with a missing control
or discovery timestamp are excluded (the comparison against a missing
value yields `false`); and the filter is idempotent. -/
theorem filter_selects_exactly :
    (∀ df r, r ∈ filtered_df df ↔
      r ∈ df ∧ (∃ a, r.acres = some a ∧ 1 < a) ∧
        (∃ c d, r.control = some c ∧ r.discovery = some d ∧
          oneDaySec < c.toSec - d.toSec)) ∧
    (∀ df, filtered_df (filtered_df df) = filtered_df df) := by
  constructor
  · intro df r
    simp only [filtered_df, List.mem_filter, acresGtOne_iff, durGtOneDay_iff]
    tauto
  · intro df
    simp only [filtered_df, List.filter_filter]
    apply List.filter_congr
    intro r hr
    cases acresGtOne r <;> cases durGtOneDay r <;> rfl

/-- C9: a record with a missing `DailyAcres` never passes the filter,
because `NaN > 1` evaluates to false. -/
theorem filter_excludes_missing_acres (df : List FireRecord)
    (r : FireRecord) (h : r.acres = none) : r ∉ filtered_df df := by
  intro hmem
  rcases (filter_selects_exactly.1 df r).1 hmem with ⟨-, ⟨a, ha, -⟩, -⟩
  rw [h] at ha
  exact Option.noConfusion ha

/-- A record with every value missing: concrete input for the filter. -/
def recMissing : FireRecord :=
  { id := 0, lat := [], long := [], discovery := none, control := none,
    acres := none }

/-- Concrete instance of `filter_excludes_missing_acres`. -/
theorem filter_excludes_missing_acres_witness :
    recMissing.acres = none ∧ recMissing ∉ filtered_df [recMissing] :=
  ⟨rfl, filter_excludes_missing_acres [recMissing] recMissing rfl⟩

/-! ## Historical window (C6) -/

/-- C6: the historical-precipitation loop queries the window
`[discovery − 6 months, discovery]`: the start date passed to
`build_request_param` is the discovery timestamp minus six months, the
end date is the discovery timestamp itself; the subtraction is calendar
month arithmetic — the month index moves back by exactly 6 and the day
is clamped to the target month — and not 180-day arithmetic, as the
spec's own example date shows (the gap there is 182 days). -/
theorem hist_window_correct :
    (∀ r : FireRecord, ∀ D, r.discovery = some D →
        histDates r = some (dtSubMonths D 6, D)) ∧
    (∀ d : Date,
        (subMonths d 6).year * 12 + ((subMonths d 6).month : Int) =
          d.year * 12 + (d.month : Int) - 6 ∧
        (subMonths d 6).day =
          min d.day (daysInMonth (subMonths d 6).year
            (subMonths d 6).month)) ∧
    (subMonths ⟨2020, 7, 19⟩ 6 = ⟨2020, 1, 19⟩ ∧
      toRD ⟨2020, 7, 19⟩ - toRD (subMonths ⟨2020, 7, 19⟩ 6) = 182 ∧
      (182 : Int) ≠ 180) := by
  refine ⟨?_, ?_, by decide, by decide, by decide⟩
  · intro r D h
    simp [histDates, h]
  · intro d
    constructor
    · show (d.year * 12 + (d.month : Int) - 1 - 6).fdiv 12 * 12 +
        (((d.year * 12 + (d.month : Int) - 1 - 6).fmod 12).toNat + 1 : Nat) =
        d.year * 12 + (d.month : Int) - 6
      set t : Int := d.year * 12 + (d.month : Int) - 1 - 6 with ht
      have hid := Int.fdiv_add_fmod t 12
      have hnn : 0 ≤ t.fmod 12 := Int.fmod_nonneg' t (by omega)
      push_cast [Int.toNat_of_nonneg hnn]
      omega
    · rfl

/-- The spec's example incident (id 1, discovery 2020‑07‑19 23:00 UTC). -/
def recExample : FireRecord :=
  { id := 1, lat := "40.602563".toList, long := "-115.719777".toList,
    discovery := some ⟨⟨2020, 7, 19⟩, 82800⟩,
    control := some ⟨⟨2020, 9, 2⟩, 54000⟩,
    acres := some (59859 / 10) }

/-- Concrete instance of `hist_window_correct`: the example incident's
historical query runs from 2020‑01‑19 to 2020‑07‑19. -/
theorem hist_window_correct_witness :
    histDates recExample =
      some (⟨⟨2020, 1, 19⟩, 82800⟩, ⟨⟨2020, 7, 19⟩, 82800⟩) := by
  have h := hist_window_correct.1 recExample ⟨⟨2020, 7, 19⟩, 82800⟩ rfl
  rw [h]
  decide

/-! ## Properties of the marker split -/

theorem splitFirst_nil (sep : Text) : splitFirst sep [] = none := rfl

theorem splitFirst_some_eq {sep s p q : Text}
    (h : splitFirst sep s = some (p, q)) : s = p ++ sep ++ q := by
  induction s generalizing p q with
  | nil => exact absurd h (by simp [splitFirst])
  | cons c rest ih =>
    rw [splitFirst] at h
    by_cases hpre : sep.isPrefixOf (c :: rest)
    · rw [if_pos hpre] at h
      obtain ⟨hp, hq⟩ := Prod.mk.injEq .. ▸ Option.some.injEq .. ▸ h
      have hpre2 : sep <+: c :: rest := by
        exact List.isPrefixOf_iff_prefix.mp hpre
      obtain ⟨t, ht⟩ := hpre2
      subst hp
      simp only [List.nil_append]
      rw [← hq, ← ht, List.drop_left]
    · rw [if_neg hpre] at h
      cases hrec : splitFirst sep rest with
      | none => rw [hrec] at h; exact absurd h (by simp)
      | some pq =>
        obtain ⟨p0, q0⟩ := pq
        rw [hrec] at h
        simp only [Option.some.injEq, Prod.mk.injEq] at h
        obtain ⟨hp, hq⟩ := h
        subst hq
        rw [← hp]
        simpa using congrArg (c :: ·) (ih hrec)

theorem splitFirst_some_length {sep s p q : Text} (hsep : sep ≠ [])
    (h : splitFirst sep s = some (p, q)) : q.length < s.length := by
  induction s generalizing p q with
  | nil => exact absurd h (by simp [splitFirst])
  | cons c rest ih =>
    rw [splitFirst] at h
    by_cases hpre : sep.isPrefixOf (c :: rest)
    · rw [if_pos hpre] at h
      simp only [Option.some.injEq, Prod.mk.injEq] at h
      have hlen : 1 ≤ sep.length := by
        cases sep with
        | nil => exact absurd rfl hsep
        | cons a l => simp
      rw [← h.2]
      simp only [List.length_drop, List.length_cons]
      omega
    · rw [if_neg hpre] at h
      cases hrec : splitFirst sep rest with
      | none => rw [hrec] at h; exact absurd h (by simp)
      | some pq =>
        obtain ⟨p0, q0⟩ := pq
        rw [hrec] at h
        simp only [Option.some.injEq, Prod.mk.injEq] at h
        have := ih hrec
        rw [← h.2]
        simp only [List.length_cons]
        omega

theorem splitFirst_append {sep t : Text} (hsep : sep ≠ []) :
    ∀ {p : Text}, ¬ sep <:+: (p ++ sep.dropLast) →
    splitFirst sep (p ++ (sep ++ t)) = some (p, t) := by
  intro p
  induction p with
  | nil =>
    intro h
    cases hs : sep with
    | nil => exact absurd hs hsep
    | cons a sep2 =>
      simp only [List.nil_append, List.cons_append]
      rw [splitFirst]
      have hpre : (a :: sep2).isPrefixOf (a :: (sep2 ++ t)) = true := by
        apply List.isPrefixOf_iff_prefix.mpr
        exact ⟨t, by simp⟩
      rw [if_pos hpre]
      simp [List.drop_left]
  | cons x p ih =>
    intro h
    have hxp : (x :: p) ++ (sep ++ t) = x :: (p ++ (sep ++ t)) := by simp
    rw [hxp, splitFirst]
    have hA : x :: (p ++ (sep ++ t)) =
        (x :: (p ++ sep.dropLast)) ++ ([sep.getLast hsep] ++ t) := by
      have hsep2 : sep.dropLast ++ [sep.getLast hsep] = sep :=
        List.dropLast_append_getLast hsep
      conv_lhs => rw [← hsep2]
      simp [List.append_assoc]
    have hnotpre : ¬ sep.isPrefixOf (x :: (p ++ (sep ++ t))) = true := by
      intro hpre
      apply h
      have hp2 : sep <+: (x :: (p ++ sep.dropLast)) ++ ([sep.getLast hsep] ++ t) := by
        rw [← hA]
        exact List.isPrefixOf_iff_prefix.mp hpre
      have hlen : sep.length ≤ (x :: (p ++ sep.dropLast)).length := by
        simp only [List.length_cons, List.length_append, List.length_dropLast]
        have : 1 ≤ sep.length := List.length_pos.mpr hsep
        omega
      have hpref : sep <+: x :: (p ++ sep.dropLast) :=
        List.prefix_of_prefix_length_le hp2
          (List.prefix_append (x :: (p ++ sep.dropLast)) ([sep.getLast hsep] ++ t))
          hlen
      have : sep <:+: x :: (p ++ sep.dropLast) := hpref.isInfix
      simpa using this
    rw [if_neg hnotpre]
    have hrec := ih (fun hinf => h (by simpa using List.infix_cons hinf))
    rw [hrec]

theorem markerL_ne_nil : markerL ≠ [] := by decide

theorem splitMarkerAux_congr :
    ∀ f1 f2 s, s.length ≤ f1 → s.length ≤ f2 →
      splitMarkerAux f1 s = splitMarkerAux f2 s := by
  intro f1
  induction f1 with
  | zero =>
    intro f2 s h1 h2
    have hs : s = [] := List.length_eq_zero.mp (Nat.le_zero.mp h1)
    subst hs
    cases f2 with
    | zero => rfl
    | succ m => rw [splitMarkerAux, splitMarkerAux, splitFirst_nil]
  | succ k ih =>
    intro f2 s h1 h2
    cases f2 with
    | zero =>
      have hs : s = [] := List.length_eq_zero.mp (Nat.le_zero.mp h2)
      subst hs
      rw [splitMarkerAux, splitMarkerAux, splitFirst_nil]
    | succ m =>
      rw [splitMarkerAux, splitMarkerAux]
      cases hsp : splitFirst markerL s with
      | none => rfl
      | some pq =>
        obtain ⟨p, q⟩ := pq
        have hq : q.length < s.length :=
          splitFirst_some_length markerL_ne_nil hsp
        have e1 := ih m q (by omega) (by omega)
        show p :: splitMarkerAux k q = p :: splitMarkerAux m q
        rw [e1]

theorem splitMarker_cons_eq {s p q : Text}
    (h : splitFirst markerL s = some (p, q)) :
    splitMarker s = p :: splitMarker q := by
  cases s with
  | nil => rw [splitFirst_nil] at h; exact absurd h (by simp)
  | cons c rest =>
    show splitMarkerAux (c :: rest).length (c :: rest) = _
    rw [List.length_cons, splitMarkerAux, h]
    have hq : q.length < (c :: rest).length :=
      splitFirst_some_length markerL_ne_nil h
    show p :: splitMarkerAux rest.length q = p :: splitMarker q
    rw [splitMarkerAux_congr rest.length q.length q
      (by simp at hq; omega) le_rfl]
    rfl

theorem splitMarker_no_marker {s : Text}
    (h : splitFirst markerL s = none) : splitMarker s = [s] := by
  cases s with
  | nil => rfl
  | cons c rest =>
    show splitMarkerAux (c :: rest).length (c :: rest) = _
    rw [List.length_cons, splitMarkerAux, h]

theorem splitMarker_append {p t : Text}
    (h : ¬ markerL <:+: (p ++ markerL.dropLast)) :
    splitMarker (p ++ (markerL ++ t)) = p :: splitMarker t :=
  splitMarker_cons_eq (splitFirst_append markerL_ne_nil h)

theorem splitMarker_single {s : Text}
    (h : ¬ markerL <:+: s) : splitMarker s = [s] := by
  apply splitMarker_no_marker
  cases hsp : splitFirst markerL s with
  | none => rfl
  | some pq =>
    obtain ⟨p, q⟩ := pq
    have := splitFirst_some_eq hsp
    exact absurd ⟨p, q, this.symm⟩ h

/-- C10: when the `-END HEADER-` marker occurs more than once in the
response body, only the text strictly between the first and the second
occurrence is parsed as the tabular payload: the split places exactly
that segment at position 1, and everything after the second occurrence
is discarded — `build_request_param` gives the same result as if the
response had ended at the second marker. -/
theorem marker_twice_discards_tail (a b c : Text)
    (ha : ¬ markerL <:+: (a ++ markerL.dropLast))
    (hb : ¬ markerL <:+: (b ++ markerL.dropLast)) :
    (splitMarker (a ++ (markerL ++ (b ++ (markerL ++ c))))).getD 1 [] = b ∧
    ∀ id lat long sd ed rdf base,
      build_request_param
          (fun u => .success (a ++ (markerL ++ (b ++ (markerL ++ c)))))
          id lat long sd ed rdf base .ymd =
        build_request_param (fun u => .success (a ++ (markerL ++ b)))
          id lat long sd ed rdf base .ymd := by
  have hbM : ¬ markerL <:+: b := fun hinf =>
    hb (hinf.trans (List.prefix_append b markerL.dropLast).isInfix)
  have h1 : splitMarker (a ++ (markerL ++ (b ++ (markerL ++ c)))) =
      a :: b :: splitMarker c := by
    rw [splitMarker_append ha, splitMarker_append hb]
  have h2 : splitMarker (a ++ (markerL ++ b)) = [a, b] := by
    rw [splitMarker_append ha, splitMarker_single hbM]
  refine ⟨by rw [h1]; rfl, ?_⟩
  intro id lat long sd ed rdf base
  show build_request_param _ _ _ _ _ _ _ _ _ = _
  rw [build_request_param, build_request_param]
  simp only [h1, h2, List.length_cons, List.getD_cons_succ,
    List.getD_cons_zero]
  rw [if_pos (by omega : 2 ≤ (splitMarker c).length + 1 + 1)]
  simp

/-- Concrete instance of `marker_twice_discards_tail`: a doubled marker
in a response in which only the middle segment carries the table. -/
theorem marker_twice_discards_tail_witness :
    (splitMarker ("head".toList ++ (markerL ++ ("\nYEAR,MO\n2020,7".toList
        ++ (markerL ++ "junk after".toList))))).getD 1 []
      = "\nYEAR,MO\n2020,7".toList ∧
    build_request_param
        (fun u => .success ("head".toList ++ (markerL ++
          ("\nYEAR,MO\n2020,7".toList ++ (markerL ++ "junk after".toList)))))
        7 "40.6".toList "-115.7".toList ⟨⟨2020, 7, 19⟩, 0⟩
        ⟨⟨2020, 9, 2⟩, 0⟩ (some emptyDF) "base?".toList .ymd =
      build_request_param
        (fun u => .success ("head".toList ++ (markerL ++
          "\nYEAR,MO\n2020,7".toList)))
        7 "40.6".toList "-115.7".toList ⟨⟨2020, 7, 19⟩, 0⟩
        ⟨⟨2020, 9, 2⟩, 0⟩ (some emptyDF) "base?".toList .ymd := by
  have h := marker_twice_discards_tail "head".toList
    "\nYEAR,MO\n2020,7".toList "junk after".toList (by decide) (by decide)
  exact ⟨h.1, h.2 7 "40.6".toList "-115.7".toList ⟨⟨2020, 7, 19⟩, 0⟩
    ⟨⟨2020, 9, 2⟩, 0⟩ (some emptyDF) "base?".toList⟩

/-! ## Connectivity failure and no-data handling (C1, C2) -/

/-- A small non-empty accumulated table. -/
def dfSample : DF :=
  { header := ["YEAR".toList], rows := [["2020".toList]] }

/-- A well-formed response: metadata, the marker, then a csv table. -/
def goodText : Text := "h-END HEADER-\nYEAR,MO\n2020,7".toList

/-- A record with both timestamps present. -/
def recWithDates : FireRecord :=
  { id := 2, lat := "1.5".toList, long := "2.5".toList,
    discovery := some ⟨⟨2020, 1, 1⟩, 0⟩,
    control := some ⟨⟨2020, 1, 3⟩, 0⟩, acres := some 5 }

/-- C1 (code bug, evaluated at the failing input): a connectivity
failure is `requests.exceptions.ConnectionError`, which the notebook's
bare `except ConnectionError` clause (naming the Python builtin, not a
superclass of requests' exception) does not catch — the failure
propagates uncaught past the batch boundary: the record is not skipped
and the whole campaign aborts with the exception instead of continuing
with the accumulated table `dfSample`. -/
theorem conn_error_aborts_batch :
    stepBasic (fun u => .connError) "b".toList (.ok (some dfSample))
        recWithDates = .exn .requestsConnError ∧
    basicCampaign (fun u => .connError) [recWithDates, recWithDates]
        "b".toList = .exn .requestsConnError ∧
    (.exn .requestsConnError : PyRes (Option DF)) ≠ .ok (some dfSample) := by
  refine ⟨by decide, by decide, by decide⟩

/-- C2 counterexample: a response whose post-marker segment is empty is
not treated as no-data — instead of returning the running table
unchanged, `pd.read_csv` of the empty segment raises an uncaught
`EmptyDataError`. -/
theorem empty_segment_not_tolerated :
    build_request_param (fun u => .success "meta-END HEADER-".toList)
        1 "40.6".toList "-115.7".toList ⟨⟨2020, 7, 19⟩, 0⟩
        ⟨⟨2020, 9, 2⟩, 0⟩ (some dfSample) "b".toList .ymd
      = .exn .emptyData ∧
    build_request_param (fun u => .success "meta-END HEADER-".toList)
        1 "40.6".toList "-115.7".toList ⟨⟨2020, 7, 19⟩, 0⟩
        ⟨⟨2020, 9, 2⟩, 0⟩ (some dfSample) "b".toList .ymd
      ≠ .ok (some dfSample) := by
  refine ⟨by decide, by decide⟩

/-- C2 amended: a response in which the marker is absent is treated as
no data available — the running table is returned unchanged — while a
response whose post-marker segment is empty raises an uncaught
`EmptyDataError` (the batch aborts) rather than being tolerated. -/
theorem no_marker_leaves_table_unchanged :
    (∀ (text : Text), (splitMarker text).length < 2 →
      ∀ fetchF id lat long sd ed rdf base filt,
        (∀ u, fetchF u = FetchOutcome.success text) →
        build_request_param fetchF id lat long sd ed rdf base filt
          = .ok rdf) ∧
    (∀ (a : Text), ¬ markerL <:+: (a ++ markerL.dropLast) →
      ∀ id lat long sd ed df base filt,
        build_request_param (fun u => .success (a ++ markerL)) id lat
          long sd ed (some df) base filt = .exn .emptyData) := by
  constructor
  · intro text hlen fetchF id lat long sd ed rdf base filt hF
    simp only [build_request_param, hF]
    rw [if_neg (by omega)]
  · intro a hA id lat long sd ed df base filt
    have hsplit : splitMarker (a ++ markerL) = [a, []] := by
      have he : a ++ markerL = a ++ (markerL ++ ([] : Text)) := by simp
      rw [he, splitMarker_append hA]
      rfl
    simp only [build_request_param, hsplit]
    rfl

/-- Concrete instance of `no_marker_leaves_table_unchanged`. -/
theorem no_marker_leaves_table_unchanged_witness :
    build_request_param (fun u => .success "no data here".toList) 1 [] []
        ⟨⟨2020, 1, 1⟩, 0⟩ ⟨⟨2020, 1, 2⟩, 0⟩ (some dfSample) [] .ymd
      = .ok (some dfSample) ∧
    build_request_param (fun u => .success ("meta".toList ++ markerL))
        1 [] [] ⟨⟨2020, 1, 1⟩, 0⟩ ⟨⟨2020, 1, 2⟩, 0⟩ (some dfSample) [] .ymd
      = .exn .emptyData :=
  ⟨no_marker_leaves_table_unchanged.1 "no data here".toList (by decide)
      _ 1 [] [] ⟨⟨2020, 1, 1⟩, 0⟩ ⟨⟨2020, 1, 2⟩, 0⟩ (some dfSample) []
      .ymd (fun u => rfl),
    no_marker_leaves_table_unchanged.2 "meta".toList (by decide)
      1 [] [] ⟨⟨2020, 1, 1⟩, 0⟩ ⟨⟨2020, 1, 2⟩, 0⟩ dfSample [] .ymd⟩

/-! ## Accumulation across a campaign (C8) -/

theorem stepBasic_good (fetchF : Text → FetchOutcome) (base_uri : Text)
    (r : FireRecord) (h : goodRecord fetchF base_uri r) (acc : DF) :
    ∃ df2 : DF,
      stepBasic fetchF base_uri (.ok (some acc)) r = .ok (some df2) ∧
      df2.rows = acc.rows ++ fetchRows fetchF base_uri r := by
  obtain ⟨d, c, hd, hc, text, hfetch, hparse⟩ := h
  rw [stepBasic, hd, hc, fetchRows, hd, hc]
  simp only [build_request_param, hfetch]
  by_cases hlen : 2 ≤ (splitMarker text).length
  · obtain ⟨pdf, hpdf⟩ := hparse hlen
    rw [if_pos hlen, if_pos hlen, hpdf]
    exact ⟨_, rfl, rfl⟩
  · rw [if_neg hlen, if_neg hlen]
    exact ⟨acc, rfl, by simp⟩

theorem foldBasic_good (fetchF : Text → FetchOutcome) (base_uri : Text) :
    ∀ (recs : List FireRecord) (acc : DF),
      (∀ r ∈ recs, goodRecord fetchF base_uri r) →
      ∃ final : DF,
        recs.foldl (stepBasic fetchF base_uri) (.ok (some acc))
          = .ok (some final) ∧
        final.rows =
          acc.rows ++ (recs.map (fetchRows fetchF base_uri)).flatten := by
  intro recs
  induction recs with
  | nil =>
    intro acc hgood
    exact ⟨acc, rfl, by simp⟩
  | cons r rs ih =>
    intro acc hgood
    obtain ⟨df2, hstep, hrows⟩ :=
      stepBasic_good fetchF base_uri r (hgood r (by simp)) acc
    obtain ⟨final, hfold, hfinal⟩ :=
      ih df2 (fun x hx => hgood x (List.mem_cons_of_mem r hx))
    refine ⟨final, ?_, ?_⟩
    · rw [List.foldl_cons, hstep, hfold]
    · rw [hfinal, hrows]
      simp [List.append_assoc]

/-- C8: over a campaign of sequential fetches whose records are all
well-behaved (dates present, fetch succeeds, payload parseable when the
marker is present — a marker-less, empty result is allowed and
contributes no rows), the combined table's rows are exactly the
concatenation, in input iteration order, of the rows contributed by each
record, and its row count is the sum of the individual row counts. -/
theorem order_preservation (fetchF : Text → FetchOutcome)
    (recs : List FireRecord) (base_uri : Text)
    (h : ∀ r ∈ recs, goodRecord fetchF base_uri r) :
    ∃ final : DF,
      basicCampaign fetchF recs base_uri = .ok (some final) ∧
      final.rows = (recs.map (fetchRows fetchF base_uri)).flatten ∧
      final.rows.length =
        (recs.map (fun r => (fetchRows fetchF base_uri r).length)).sum := by
  obtain ⟨final, hfold, hrows⟩ := foldBasic_good fetchF base_uri recs emptyDF h
  refine ⟨final, hfold, ?_, ?_⟩
  · simpa [emptyDF] using hrows
  · rw [hrows]
    simp [emptyDF, List.length_flatten, Function.comp_def]

/-- Concrete instance of `order_preservation`: one record, one fetch
with one data row. -/
theorem order_preservation_witness :
    ∃ final : DF,
      basicCampaign (fun u => .success goodText) [recWithDates] "b".toList
        = .ok (some final) ∧
      final.rows =
        ([recWithDates].map
          (fetchRows (fun u => .success goodText) "b".toList)).flatten ∧
      final.rows.length =
        ([recWithDates].map (fun r =>
          (fetchRows (fun u => .success goodText) "b".toList r).length)).sum := by
  apply order_preservation
  intro r hr
  have hre : r = recWithDates := by
    cases hr with
    | head => rfl
    | tail _ hx => cases hx
  subst hre
  exact ⟨⟨⟨2020, 1, 1⟩, 0⟩, ⟨⟨2020, 1, 3⟩, 0⟩, rfl, rfl, goodText, rfl,
    fun hlen => ⟨_, rfl⟩⟩

/-! ## Export keying (C3) and column projection (C4) -/

/-- A minimal master table: the `id` column plus one feature column. -/
def mSample : Frame :=
  { cols := ["id", "T2M"], rows := [[("id", "1"), ("T2M", "20.5")]] }

/-- C3 counterexample: after `set_index('id')` the export with
`index=False` writes neither an `id` column nor the id values — the
persisted master csv does not carry the incident identifier at all. -/
theorem export_drops_id_counterexample :
    exportMaster mSample = [["T2M"], ["20.5"]] ∧
    "id" ∉ (exportMaster mSample).flatten ∧
    "1" ∉ (exportMaster mSample).flatten := by
  refine ⟨by decide, by decide, by decide⟩

/-- C3 amended: both master tables are comma-separated with a header row
present and are keyed by the incident identifier only in memory: after
`set_index('id')` the index name is `id` and the index holds the id
cells, but the file is written with `index=False`, so the persisted
output's header is exactly the remaining columns and contains no `id`
column. -/
theorem export_master_keyed_in_memory (m : Frame) :
    (set_index m "id").indexName = "id" ∧
    (set_index m "id").index = m.rows.map (fun row => row.getCol "id") ∧
    (exportMaster m).head? = some ((set_index m "id").cols) ∧
    "id" ∉ (set_index m "id").cols := by
  refine ⟨rfl, rfl, rfl, ?_⟩
  intro h
  rw [set_index] at h
  simp only [List.mem_filter] at h
  exact absurd h.2 (by simp)

/-- A frame lacking one of the names a drop list mentions. -/
def fSample : Frame :=
  { cols := ["id", "a"], rows := [[("id", "1"), ("a", "x")]] }

/-- C4 counterexample: dropping a column name that is absent from the
table is an error (`KeyError`), not a tolerated no-op — pandas `drop`
defaults to `errors='raise'`. -/
theorem drop_absent_raises_counterexample :
    Frame.dropCols fSample ["nope"] = .error "KeyError" ∧
    ∀ g : Frame, Frame.dropCols fSample ["nope"] ≠ .ok g := by
  refine ⟨rfl, ?_⟩
  intro g h
  rw [show Frame.dropCols fSample ["nope"] = .error "KeyError" from rfl] at h
  exact Except.noConfusion h

/-- C4 amended: the column projection removes each listed name when every
listed name is present in the table; a listed name absent from the table
raises a `KeyError` (strict drop, not tolerant); afterwards the table is
keyed by the incident identifier via `set_index('id')`. -/
theorem drop_strict_then_key :
    (∀ (f : Frame) (names : List String),
      (∀ n ∈ names, n ∈ f.cols) →
      f.dropCols names =
        .ok { cols := f.cols.filter (fun c => c ∉ names),
              rows := f.rows.map
                (fun row => row.filter (fun p => p.1 ∉ names)) }) ∧
    (∀ (f : Frame) (names : List String),
      (∃ n ∈ names, n ∉ f.cols) → f.dropCols names = .error "KeyError") ∧
    (∀ m : Frame, (set_index m "id").indexName = "id") := by
  refine ⟨?_, ?_, fun m => rfl⟩
  · intro f names h
    rw [Frame.dropCols, if_pos]
    rw [List.all_eq_true]
    intro n hn
    exact decide_eq_true (h n hn)
  · intro f names h
    obtain ⟨n, hn, habs⟩ := h
    rw [Frame.dropCols, if_neg]
    intro hall
    rw [List.all_eq_true] at hall
    exact habs (of_decide_eq_true (hall n hn))

/-- Concrete instance of `drop_strict_then_key`: all listed names
present on one side, an absent name on the other. -/
theorem drop_strict_then_key_witness :
    Frame.dropCols fSample ["a"] =
      .ok { cols := ["id"], rows := [[("id", "1")]] } ∧
    Frame.dropCols fSample ["a", "zz"] = .error "KeyError" := by
  constructor
  · have h := drop_strict_then_key.1 fSample ["a"] (by decide)
    rw [h]
    rfl
  · exact drop_strict_then_key.2.1 fSample ["a", "zz"]
      ⟨"zz", by decide, by decide⟩

/-! ## Join exclusivity (C5): row lemmas -/

theorem getCol_append_of_left_some {a : Row} {c : String} {v : String}
    (h : a.getCol c = some v) (b : Row) : (a ++ b).getCol c = some v := by
  unfold Row.getCol at h ⊢
  rw [List.find?_append]
  cases hf : a.find? (fun p => p.1 == c) with
  | none => rw [hf] at h; exact absurd h (by simp)
  | some x =>
    rw [hf] at h
    simpa [Option.or] using h

theorem getCol_append_of_left_none {a : Row} {c : String}
    (h : a.getCol c = none) (b : Row) : (a ++ b).getCol c = b.getCol c := by
  unfold Row.getCol at h ⊢
  rw [List.find?_append]
  cases hf : a.find? (fun p => p.1 == c) with
  | none => simp
  | some x => rw [hf] at h; exact absurd h (by simp)

theorem getCol_append_of_right_none {b : Row} {c : String}
    (h : b.getCol c = none) (a : Row) : (a ++ b).getCol c = a.getCol c := by
  cases ha : a.getCol c with
  | none => rw [getCol_append_of_left_none ha, h]
  | some v => exact getCol_append_of_left_some ha b

theorem getCol_eraseCol_self (row : Row) (k : String) :
    (row.eraseCol k).getCol k = none := by
  unfold Row.getCol Row.eraseCol
  have h : List.find? (fun p => p.1 == k)
      (List.filter (fun p => p.1 != k) row) = none := by
    rw [List.find?_eq_none]
    intro p hp
    rw [List.mem_filter] at hp
    simpa using hp.2
  rw [h]
  rfl

theorem getCol_eraseCol_ne (row : Row) {k c : String} (h : c ≠ k) :
    (row.eraseCol k).getCol c = row.getCol c := by
  unfold Row.getCol Row.eraseCol
  congr 1
  induction row with
  | nil => rfl
  | cons p row ih =>
    rw [List.filter_cons]
    by_cases hc : p.1 = c
    · have hpk : p.1 ≠ k := by rw [hc]; exact h
      rw [if_pos (by simpa using hpk)]
      rw [List.find?_cons_of_pos _ (by simpa using hc),
        List.find?_cons_of_pos _ (by simpa using hc)]
    · by_cases hk : p.1 = k
      · rw [if_neg (by simpa using hk)]
        rw [List.find?_cons_of_neg _ (by simpa using hc)]
        exact ih
      · rw [if_pos (by simpa using hk)]
        rw [List.find?_cons_of_neg _ (by simpa using hc),
          List.find?_cons_of_neg _ (by simpa using hc)]
        exact ih

theorem matchKey_iff {lr : Row} {lk : String} {rr : Row} {rk : String} :
    matchKey lr lk rr rk = true ↔
      ∃ v, lr.getCol lk = some v ∧ rr.getCol rk = some v := by
  unfold matchKey
  cases hl : lr.getCol lk with
  | none => simp
  | some a =>
    cases hr : rr.getCol rk with
    | none => simp
    | some b =>
      show (a == b) = true ↔ ∃ v, some a = some v ∧ some b = some v
      constructor
      · intro hab
        rw [beq_iff_eq] at hab
        exact ⟨a, rfl, by rw [hab]⟩
      · rintro ⟨v, h1, h2⟩
        rw [Option.some.injEq] at h1 h2
        rw [beq_iff_eq, h1, h2]

/-! ## Join exclusivity (C5): counting machinery -/

theorem countP_flatMap' {α β : Type} (Q : β → Bool) (f : α → List β) :
    ∀ L : List α,
      (L.flatMap f).countP Q = (L.map (fun a => (f a).countP Q)).sum := by
  intro L
  induction L with
  | nil => rfl
  | cons a L ih =>
    rw [List.flatMap_cons, List.countP_append, ih, List.map_cons,
      List.sum_cons]

theorem sum_map_add {α : Type} (f g : α → Nat) :
    ∀ L : List α,
      (L.map (fun a => f a + g a)).sum = (L.map f).sum + (L.map g).sum := by
  intro L
  induction L with
  | nil => rfl
  | cons a L ih =>
    simp only [List.map_cons, List.sum_cons, ih]
    omega

theorem sum_ite_eq_countP {α : Type} (p : α → Bool) :
    ∀ L : List α,
      (L.map (fun a => if p a then 1 else 0)).sum = L.countP p := by
  intro L
  induction L with
  | nil => rfl
  | cons a L ih =>
    simp only [List.map_cons, List.sum_cons, List.countP_cons, ih]
    omega

theorem sum_countP_swap {α β : Type} (m : α → β → Bool) :
    ∀ (L : List α) (R : List β),
      (L.map (fun lr => R.countP (fun rr => m lr rr))).sum =
      (R.map (fun rr => L.countP (fun lr => m lr rr))).sum := by
  intro L
  induction L with
  | nil =>
    intro R
    simp
  | cons lr L ih =>
    intro R
    simp only [List.map_cons, List.sum_cons, ih]
    have h1 : ∀ rr ∈ R, (lr :: L).countP (fun x => m x rr) =
        L.countP (fun x => m x rr) + if m lr rr then 1 else 0 := by
      intro rr _
      simp [List.countP_cons]
    rw [List.map_congr_left h1, sum_map_add, sum_ite_eq_countP]
    have heta : List.countP (fun rr => m lr rr) R = List.countP (m lr) R :=
      rfl
    rw [heta]
    omega

theorem sum_le_length_of_le_one {α : Type} {L : List α} {f : α → Nat}
    (h : ∀ a ∈ L, f a ≤ 1) : (L.map f).sum ≤ L.length := by
  induction L with
  | nil => simp
  | cons a L ih =>
    simp only [List.map_cons, List.sum_cons, List.length_cons]
    have h1 := h a (by simp)
    have h2 := ih (fun x hx => h x (List.mem_cons_of_mem a hx))
    omega

theorem countP_merge (l r : Frame) (lk rk : String) (Q : Row → Bool) :
    (merge l r lk rk).rows.countP Q =
      (l.rows.map (fun lr => r.rows.countP
        (fun rr => Q (lr ++ rr) && matchKey lr lk rr rk))).sum := by
  show (l.rows.flatMap _).countP Q = _
  rw [countP_flatMap']
  congr 1
  apply List.map_congr_left
  intro lr _
  rw [List.countP_map, List.countP_filter]
  rfl

theorem countP_mergeOn (l r : Frame) (k : String) (Q : Row → Bool) :
    (mergeOn l r k).rows.countP Q =
      (l.rows.map (fun lr => r.rows.countP
        (fun rr => Q (lr ++ rr.eraseCol k) && matchKey lr k rr k))).sum := by
  show (l.rows.flatMap _).countP Q = _
  rw [countP_flatMap']
  congr 1
  apply List.map_congr_left
  intro lr _
  rw [List.countP_map, List.countP_filter]
  rfl

theorem length_merge (l r : Frame) (lk rk : String) :
    (merge l r lk rk).rows.length =
      (l.rows.map (fun lr =>
        r.rows.countP (fun rr => matchKey lr lk rr rk))).sum := by
  have h := countP_merge l r lk rk (fun x => true)
  simp only [Bool.true_and] at h
  rw [← h]
  rw [show ((merge l r lk rk).rows.countP fun x => true) =
    (merge l r lk rk).rows.length from congrFun List.countP_true _]

theorem length_mergeOn (l r : Frame) (k : String) :
    (mergeOn l r k).rows.length =
      (l.rows.map (fun lr =>
        r.rows.countP (fun rr => matchKey lr k rr k))).sum := by
  have h := countP_mergeOn l r k (fun x => true)
  simp only [Bool.true_and] at h
  rw [← h]
  rw [show ((mergeOn l r k).rows.countP fun x => true) =
    (mergeOn l r k).rows.length from congrFun List.countP_true _]

theorem countP_keyeq_le_one {rows : List Row} {k : String}
    (h : (rows.map (fun x => Row.getCol x k)).Nodup) (a : Option String) :
    rows.countP (fun x => decide (x.getCol k = a)) ≤ 1 := by
  induction rows with
  | nil => simp
  | cons r rows ih =>
    rw [List.map_cons, List.nodup_cons] at h
    rw [List.countP_cons]
    by_cases hr : r.getCol k = a
    · have hz : rows.countP (fun x => decide (x.getCol k = a)) = 0 := by
        rw [List.countP_eq_zero]
        intro x hx hxa
        rw [decide_eq_true_eq] at hxa
        apply h.1
        rw [← hr] at hxa
        rw [← hxa]
        exact List.mem_map_of_mem _ hx
      rw [hz]
      simp [hr]
    · have h2 := ih h.2
      have hif : (if decide (r.getCol k = a) = true then 1 else 0) = 0 := by
        simp [hr]
      rw [hif]
      omega

theorem countP_match_le_one_right {R : List Row} {rk : String}
    (h : (R.map (fun x => Row.getCol x rk)).Nodup) (lr : Row)
    (lk : String) :
    R.countP (fun rr => matchKey lr lk rr rk) ≤ 1 := by
  cases hv : lr.getCol lk with
  | none =>
    have hz : R.countP (fun rr => matchKey lr lk rr rk) = 0 := by
      rw [List.countP_eq_zero]
      intro rr hrr hm
      obtain ⟨v, h1, h2⟩ := matchKey_iff.mp hm
      rw [hv] at h1
      exact Option.noConfusion h1
    omega
  | some v =>
    refine le_trans (le_of_eq (List.countP_congr ?_))
      (countP_keyeq_le_one h (some v))
    intro rr hrr
    rw [matchKey_iff, decide_eq_true_eq]
    constructor
    · rintro ⟨w, h1, h2⟩
      rw [hv, Option.some.injEq] at h1
      rw [← h1] at h2
      exact h2
    · intro h2
      exact ⟨v, hv, h2⟩

theorem countP_match_le_one_left {L : List Row} {lk : String}
    (h : (L.map (fun x => Row.getCol x lk)).Nodup) (rr : Row)
    (rk : String) :
    L.countP (fun lr => matchKey lr lk rr rk) ≤ 1 := by
  cases hv : rr.getCol rk with
  | none =>
    have hz : L.countP (fun lr => matchKey lr lk rr rk) = 0 := by
      rw [List.countP_eq_zero]
      intro lr hlr hm
      obtain ⟨v, h1, h2⟩ := matchKey_iff.mp hm
      rw [hv] at h2
      exact Option.noConfusion h2
    omega
  | some v =>
    refine le_trans (le_of_eq (List.countP_congr ?_))
      (countP_keyeq_le_one h (some v))
    intro lr hlr
    rw [matchKey_iff, decide_eq_true_eq]
    constructor
    · rintro ⟨w, h1, h2⟩
      rw [hv, Option.some.injEq] at h2
      rw [← h2] at h1
      exact h1
    · intro h1
      exact ⟨v, h1, hv⟩

theorem merge_length_le_left (l r : Frame) (lk rk : String)
    (h : (r.rows.map (fun x => Row.getCol x rk)).Nodup) :
    (merge l r lk rk).rows.length ≤ l.rows.length := by
  rw [length_merge]
  exact sum_le_length_of_le_one
    (fun lr _ => countP_match_le_one_right h lr lk)

theorem merge_length_le_right (l r : Frame) (lk rk : String)
    (h : (l.rows.map (fun x => Row.getCol x lk)).Nodup) :
    (merge l r lk rk).rows.length ≤ r.rows.length := by
  rw [length_merge, sum_countP_swap (fun lr rr => matchKey lr lk rr rk)]
  exact sum_le_length_of_le_one
    (fun rr _ => countP_match_le_one_left h rr rk)

theorem mergeOn_length_le_left (l r : Frame) (k : String)
    (h : (r.rows.map (fun x => Row.getCol x k)).Nodup) :
    (mergeOn l r k).rows.length ≤ l.rows.length := by
  rw [length_mergeOn]
  exact sum_le_length_of_le_one
    (fun lr _ => countP_match_le_one_right h lr k)

theorem mergeOn_length_le_right (l r : Frame) (k : String)
    (h : (l.rows.map (fun x => Row.getCol x k)).Nodup) :
    (mergeOn l r k).rows.length ≤ r.rows.length := by
  rw [length_mergeOn, sum_countP_swap (fun lr rr => matchKey lr k rr k)]
  exact sum_le_length_of_le_one
    (fun rr _ => countP_match_le_one_left h rr k)

theorem nodup_map_of_countP_le_one {rows : List Row}
    {g : Row → Option String}
    (h : ∀ a : Option String,
      rows.countP (fun x => decide (g x = a)) ≤ 1) :
    (rows.map g).Nodup := by
  induction rows with
  | nil => simp
  | cons r rows ih =>
    rw [List.map_cons, List.nodup_cons]
    constructor
    · intro hmem
      obtain ⟨x, hx, hgx⟩ := List.mem_map.mp hmem
      have hpos : 0 < rows.countP (fun y => decide (g y = g r)) :=
        List.countP_pos_iff.mpr ⟨x, hx, by simp [hgx]⟩
      have hb := h (g r)
      rw [List.countP_cons] at hb
      have hd : (if decide (g r = g r) = true then 1 else 0) = 1 := by simp
      rw [hd] at hb
      omega
    · apply ih
      intro a
      have hb := h a
      rw [List.countP_cons] at hb
      omega

theorem countP_const_and (b : Bool) (p : Row → Bool) (R : List Row) :
    R.countP (fun rr => b && p rr) = if b then R.countP p else 0 := by
  cases b with
  | false => simp
  | true => simp

/-- Key-column distinctness is preserved through `mergeOn` for a column
coming from the left side (the erased right key cannot shadow it). -/
theorem nodup_mergeOn_leftcol (l r : Frame) (k c : String)
    (hrk : (r.rows.map (fun x => Row.getCol x k)).Nodup)
    (hlc : (l.rows.map (fun x => Row.getCol x c)).Nodup)
    (hrc : ∀ rr ∈ r.rows, (Row.eraseCol rr k).getCol c = none) :
    ((mergeOn l r k).rows.map (fun x => Row.getCol x c)).Nodup := by
  apply nodup_map_of_countP_le_one
  intro a
  rw [countP_mergeOn]
  have hpt : ∀ lr ∈ l.rows,
      r.rows.countP (fun rr =>
        decide (Row.getCol (lr ++ rr.eraseCol k) c = a) &&
          matchKey lr k rr k) =
      (if decide (Row.getCol lr c = a) then
        r.rows.countP (fun rr => matchKey lr k rr k) else 0) := by
    intro lr _
    rw [← countP_const_and]
    apply List.countP_congr
    intro rr hrr
    rw [getCol_append_of_right_none (hrc rr hrr)]
  rw [List.map_congr_left hpt]
  calc (l.rows.map (fun lr =>
        if decide (Row.getCol lr c = a) then
          r.rows.countP (fun rr => matchKey lr k rr k) else 0)).sum
      ≤ (l.rows.map (fun lr =>
          if decide (Row.getCol lr c = a) then 1 else 0)).sum := by
        apply List.sum_le_sum
        intro lr hlr
        by_cases hcol : decide (Row.getCol lr c = a) = true
        · rw [if_pos hcol, if_pos hcol]
          exact countP_match_le_one_right hrk lr k
        · rw [if_neg hcol, if_neg hcol]
    _ = l.rows.countP (fun lr => decide (Row.getCol lr c = a)) :=
        sum_ite_eq_countP _ _
    _ ≤ 1 := countP_keyeq_le_one hlc a

/-- Key-column distinctness is preserved through `merge` for a column
coming from the right side, when the left side does not carry it. -/
theorem nodup_merge_rightcol (l r : Frame) (lk rk c : String)
    (hlk : (l.rows.map (fun x => Row.getCol x lk)).Nodup)
    (hrc : (r.rows.map (fun x => Row.getCol x c)).Nodup)
    (hlcn : ∀ lr ∈ l.rows, Row.getCol lr c = none) :
    ((merge l r lk rk).rows.map (fun x => Row.getCol x c)).Nodup := by
  apply nodup_map_of_countP_le_one
  intro a
  rw [countP_merge]
  have hpt : ∀ lr ∈ l.rows,
      r.rows.countP (fun rr =>
        decide (Row.getCol (lr ++ rr) c = a) && matchKey lr lk rr rk) =
      r.rows.countP (fun rr =>
        decide (Row.getCol rr c = a) && matchKey lr lk rr rk) := by
    intro lr hlr
    apply List.countP_congr
    intro rr hrr
    rw [getCol_append_of_left_none (hlcn lr hlr)]
  rw [List.map_congr_left hpt,
    sum_countP_swap (fun lr rr =>
      decide (Row.getCol rr c = a) && matchKey lr lk rr rk)]
  calc (r.rows.map (fun rr => l.rows.countP (fun lr =>
        decide (Row.getCol rr c = a) && matchKey lr lk rr rk))).sum
      = (r.rows.map (fun rr =>
          if decide (Row.getCol rr c = a) then
            l.rows.countP (fun lr => matchKey lr lk rr rk) else 0)).sum := by
        apply congrArg
        apply List.map_congr_left
        intro rr _
        exact countP_const_and _ _ _
    _ ≤ (r.rows.map (fun rr =>
          if decide (Row.getCol rr c = a) then 1 else 0)).sum := by
        apply List.sum_le_sum
        intro rr hrr
        by_cases hcol : decide (Row.getCol rr c = a) = true
        · rw [if_pos hcol, if_pos hcol]
          exact countP_match_le_one_left hlk rr rk
        · rw [if_neg hcol, if_neg hcol]
    _ = r.rows.countP (fun rr => decide (Row.getCol rr c = a)) :=
        sum_ite_eq_countP _ _
    _ ≤ 1 := countP_keyeq_le_one hrc a

theorem mem_merge_rows {l r : Frame} {lk rk : String} {row : Row}
    (h : row ∈ (merge l r lk rk).rows) :
    ∃ lr ∈ l.rows, ∃ rr ∈ r.rows,
      matchKey lr lk rr rk = true ∧ row = lr ++ rr := by
  simp only [merge, List.mem_flatMap, List.mem_map, List.mem_filter] at h
  obtain ⟨lr, hlr, rr, ⟨hrr, hm⟩, heq⟩ := h
  exact ⟨lr, hlr, rr, hrr, hm, heq.symm⟩

theorem mem_mergeOn_rows {l r : Frame} {k : String} {row : Row}
    (h : row ∈ (mergeOn l r k).rows) :
    ∃ lr ∈ l.rows, ∃ rr ∈ r.rows,
      matchKey lr k rr k = true ∧ row = lr ++ rr.eraseCol k := by
  simp only [mergeOn, List.mem_flatMap, List.mem_map, List.mem_filter] at h
  obtain ⟨lr, hlr, rr, ⟨hrr, hm⟩, heq⟩ := h
  exact ⟨lr, hlr, rr, hrr, hm, heq.symm⟩

/-- C5: inner-join exclusivity.  Every row of each (merged) master table
decomposes into one matched row from each of its required source tables,
the joins matching only on key values that are present and equal on both
sides (the joins introduce no nulls and silently drop non-matching
incidents); and when the contributing tables are keyed correctly
(distinct key values; the incident identifier column living in exactly
one source), each master table has at most as many rows as the smallest
contributing table.  The projection and `set_index` steps that finish
each master table do not change its row count. -/
theorem join_exclusivity (W L P X : Frame) :
    (∀ row ∈ (masterFilteredMerged W L P X).rows,
      ∃ p ∈ P.rows, ∃ w ∈ W.rows, ∃ x ∈ X.rows, ∃ lc ∈ L.rows,
        (∃ v, Row.getCol p "UniqueFireIdentifier" = some v ∧
              Row.getCol w "UniqueFireIdentifier" = some v) ∧
        (∃ v, Row.getCol (p ++ w.eraseCol "UniqueFireIdentifier") "id"
                = some v ∧ Row.getCol x "id" = some v) ∧
        (∃ v, Row.getCol ((p ++ w.eraseCol "UniqueFireIdentifier")
                ++ x.eraseCol "id") "id" = some v ∧
              Row.getCol lc "fire_id" = some v) ∧
        row = ((p ++ w.eraseCol "UniqueFireIdentifier")
                ++ x.eraseCol "id") ++ lc) ∧
    (∀ row ∈ (masterAllMerged W L X).rows,
      ∃ w ∈ W.rows, ∃ x ∈ X.rows, ∃ lc ∈ L.rows,
        (∃ v, Row.getCol w "fire_id" = some v ∧
              Row.getCol x "id" = some v) ∧
        (∃ v, Row.getCol (w ++ x) "id" = some v ∧
              Row.getCol lc "fire_id" = some v) ∧
        row = (w ++ x) ++ lc) ∧
    ((P.rows.map (fun t => Row.getCol t "UniqueFireIdentifier")).Nodup →
     (W.rows.map (fun t => Row.getCol t "UniqueFireIdentifier")).Nodup →
     (P.rows.map (fun t => Row.getCol t "id")).Nodup →
     (∀ w ∈ W.rows, Row.getCol w "id" = none) →
     (X.rows.map (fun t => Row.getCol t "id")).Nodup →
     (L.rows.map (fun t => Row.getCol t "fire_id")).Nodup →
       (masterFilteredMerged W L P X).rows.length ≤ P.rows.length ∧
       (masterFilteredMerged W L P X).rows.length ≤ W.rows.length ∧
       (masterFilteredMerged W L P X).rows.length ≤ X.rows.length ∧
       (masterFilteredMerged W L P X).rows.length ≤ L.rows.length) ∧
    ((W.rows.map (fun t => Row.getCol t "fire_id")).Nodup →
     (∀ w ∈ W.rows, Row.getCol w "id" = none) →
     (X.rows.map (fun t => Row.getCol t "id")).Nodup →
     (L.rows.map (fun t => Row.getCol t "fire_id")).Nodup →
       (masterAllMerged W L X).rows.length ≤ W.rows.length ∧
       (masterAllMerged W L X).rows.length ≤ X.rows.length ∧
       (masterAllMerged W L X).rows.length ≤ L.rows.length) ∧
    (∀ (f g : Frame) (names : List String), f.dropCols names = .ok g →
       g.rows.length = f.rows.length ∧
       (set_index g "id").rows.length = g.rows.length) := by
  refine ⟨?_, ?_, ?_, ?_, ?_⟩
  · intro row hrow
    obtain ⟨d1, hd1, lc, hlc, hm3, hrow⟩ := mem_merge_rows hrow
    obtain ⟨d, hd, x, hx, hm2, hd1e⟩ := mem_mergeOn_rows hd1
    obtain ⟨p, hp, w, hw, hm1, hde⟩ := mem_mergeOn_rows hd
    subst hde hd1e hrow
    exact ⟨p, hp, w, hw, x, hx, lc, hlc, matchKey_iff.mp hm1,
      matchKey_iff.mp hm2, matchKey_iff.mp hm3, rfl⟩
  · intro row hrow
    obtain ⟨d1, hd1, lc, hlc, hm2, hrow⟩ := mem_merge_rows hrow
    obtain ⟨w, hw, x, hx, hm1, hd1e⟩ := mem_merge_rows hd1
    subst hd1e hrow
    exact ⟨w, hw, x, hx, lc, hlc, matchKey_iff.mp hm1,
      matchKey_iff.mp hm2, rfl⟩
  · intro hP hW hPid hWnoid hX hL
    have hWerase : ∀ w ∈ W.rows,
        (Row.eraseCol w "UniqueFireIdentifier").getCol "id" = none := by
      intro w hw
      rw [getCol_eraseCol_ne w (by decide)]
      exact hWnoid w hw
    have hDataId : (((dataStep P W).rows).map
        (fun t => Row.getCol t "id")).Nodup :=
      nodup_mergeOn_leftcol P W "UniqueFireIdentifier" "id" hW hPid hWerase
    have hXerase : ∀ x ∈ X.rows,
        (Row.eraseCol x "id").getCol "id" = none :=
      fun x _ => getCol_eraseCol_self x "id"
    have hData1Id : (((data1Step (dataStep P W) X).rows).map
        (fun t => Row.getCol t "id")).Nodup :=
      nodup_mergeOn_leftcol (dataStep P W) X "id" "id" hX hDataId hXerase
    have hb1 := merge_length_le_left (data1Step (dataStep P W) X) L
      "id" "fire_id" hL
    have hb2 := merge_length_le_right (data1Step (dataStep P W) X) L
      "id" "fire_id" hData1Id
    have hb3 := mergeOn_length_le_left (dataStep P W) X "id" hX
    have hb4 := mergeOn_length_le_right (dataStep P W) X "id" hDataId
    have hb5 := mergeOn_length_le_left P W "UniqueFireIdentifier" hW
    have hb6 := mergeOn_length_le_right P W "UniqueFireIdentifier" hP
    exact ⟨hb1.trans (hb3.trans hb5), hb1.trans (hb3.trans hb6),
      hb1.trans hb4, hb2⟩
  · intro hWfid hWnoid hX hL
    have hData1Id : (((dataAll1Step W X).rows).map
        (fun t => Row.getCol t "id")).Nodup :=
      nodup_merge_rightcol W X "fire_id" "id" "id" hWfid hX hWnoid
    have hb1 := merge_length_le_left (dataAll1Step W X) L
      "id" "fire_id" hL
    have hb2 := merge_length_le_right (dataAll1Step W X) L
      "id" "fire_id" hData1Id
    have hb3 := merge_length_le_left W X "fire_id" "id" hX
    have hb4 := merge_length_le_right W X "fire_id" "id" hWfid
    exact ⟨hb1.trans hb3, hb1.trans hb4, hb2⟩
  · intro f g names h
    rw [Frame.dropCols] at h
    by_cases hall : names.all (fun n => n ∈ f.cols)
    · rw [if_pos hall] at h
      obtain rfl := (Except.ok.injEq .. ▸ h : _ = g)
      constructor
      · simp [set_index]
      · simp [set_index]
    · rw [if_neg hall] at h
      exact Except.noConfusion h

/-- A one-incident instance of the four input tables, keyed correctly. -/
def Pc : Frame :=
  { cols := ["UniqueFireIdentifier", "rain_sum", "snow_sum", "id"],
    rows := [[("UniqueFireIdentifier", "F1"), ("rain_sum", "10"),
      ("snow_sum", "0"), ("id", "1")]] }
/-- A one-incident instance of the four input tables, keyed correctly. -/
def Wc : Frame :=
  { cols := ["UniqueFireIdentifier", "fire_id", "DailyAcres"],
    rows := [[("UniqueFireIdentifier", "F1"), ("fire_id", "1"),
      ("DailyAcres", "5")]] }
/-- A one-incident instance of the four input tables, keyed correctly. -/
def Xc : Frame :=
  { cols := ["id", "T2M"], rows := [[("id", "1"), ("T2M", "20")]] }
/-- A one-incident instance of the four input tables, keyed correctly. -/
def Lc : Frame :=
  { cols := ["fire_id", "landcover"],
    rows := [[("fire_id", "1"), ("landcover", "42")]] }

/-- Concrete instance of `join_exclusivity`: with one correctly keyed
incident in each source the master tables have exactly one row, within
every bound. -/
theorem join_exclusivity_witness :
    ((masterFilteredMerged Wc Lc Pc Xc).rows.length ≤ Pc.rows.length ∧
     (masterFilteredMerged Wc Lc Pc Xc).rows.length ≤ Wc.rows.length ∧
     (masterFilteredMerged Wc Lc Pc Xc).rows.length ≤ Xc.rows.length ∧
     (masterFilteredMerged Wc Lc Pc Xc).rows.length ≤ Lc.rows.length) ∧
    ((masterAllMerged Wc Lc Xc).rows.length ≤ Wc.rows.length ∧
     (masterAllMerged Wc Lc Xc).rows.length ≤ Xc.rows.length ∧
     (masterAllMerged Wc Lc Xc).rows.length ≤ Lc.rows.length) ∧
    (masterFilteredMerged Wc Lc Pc Xc).rows.length = 1 := by
  have h := join_exclusivity Wc Lc Pc Xc
  exact ⟨h.2.2.1 (by decide) (by decide) (by decide) (by decide)
      (by decide) (by decide),
    h.2.2.2.1 (by decide) (by decide) (by decide) (by decide),
    by decide⟩

end WildFire
